import Mathlib

/-!
Verification of the agent-api-gateway request dispatch pipeline.

The Go source (src/main.go) is shallowly embedded here:
* Go strings are modelled as `List Char` (byte-for-byte, case-sensitive
  comparison, no canonicalisation — exactly what the Go code does with
  `==`, `strings.HasPrefix`, `strings.TrimPrefix`, `strings.SplitN`).
* `time.Time` values are modelled as `Int` timestamps measured in seconds;
  the one-minute window of `rateLimiter.allow` is the constant
  `windowDuration = 60`.  `t.After(cutoff)` is strict `cutoff < t`.
* The rate limiter's `map[string][]time.Time` is a function from key to
  list of timestamps (`RLState`), empty list standing for an absent key.
* `http.Header.Get` returning `""` for a missing header is modelled by
  storing the header value directly in the request, `[]` when absent.
* The HTTP handler is a pure function from configuration, limiter state,
  current time and request to an `Outcome` (the terminal response) and
  the successor limiter state.
-/

namespace Gateway

/-- Go strings, as lists of characters. -/
abbrev Str := List Char

/-- Embeds `strings.HasPrefix s pre` from the Go standard library:
true iff `pre` is an initial segment of `s`. -/
def hasPfx : Str → Str → Bool
  | _, [] => true
  | [], _ :: _ => false
  | c :: cs, p :: ps => if c = p then hasPfx cs ps else false

/-- Embeds the Go loop `for _, v := range ts { if x == v { return true } }
return false` used for token and key membership in `authenticate`. -/
def containsStr (ts : List Str) (x : Str) : Bool :=
  ts.any (fun t => decide (x = t))

/-- Embeds `strings.TrimPrefix(path, "/")` as used in the handler:
drop one leading slash if present, otherwise leave the string alone. -/
def trimSlash (s : Str) : Str :=
  match s with
  | '/' :: cs => cs
  | _ => s

/-- Embeds `strings.SplitN(s, "/", 2)`: the segment before the first
slash, and `some rest` when a slash occurs (`none` when it does not).
Go's SplitN with n = 2 always returns at least one element; the pair
`(before, after?)` captures both shapes of its result. -/
def splitN2 : Str → Str × Option Str
  | [] => ([], none)
  | c :: cs =>
    if c = '/' then ([], some cs)
    else
      let r := splitN2 cs
      (c :: r.1, r.2)

/-- Embeds `AuthConfig` from src/main.go: the `type` field (`"bearer"`,
`"apikey"` or anything else) and the token list. -/
structure AuthConfig where
  typ : Str
  tokens : List Str
  deriving DecidableEq

/-- Embeds `RateLimitConfig` from src/main.go. Go's `int` is modelled as `Int`. -/
structure RateLimitConfig where
  requestsPerMinute : Int
  deriving DecidableEq

/-- Embeds `Service` from src/main.go: upstream target, optional auth policy,
optional rate-limit policy. -/
structure Service where
  target : Str
  auth : Option AuthConfig
  rateLimit : Option RateLimitConfig
  deriving DecidableEq

/-- Embeds `Config.Services`: the routing table, an association list from
service name to service (the Go map, keyed by name). -/
structure Config where
  services : List (Str × Service)
  deriving DecidableEq

/-- The parts of an inbound `*http.Request` the handler reads: URL path,
`Authorization` header, `X-API-Key` header, and `RemoteAddr`.  A missing
header is the empty string, as with Go's `Header.Get`. -/
structure Request where
  path : Str
  authorization : Str
  xApiKey : Str
  remoteAddr : Str
  deriving DecidableEq

/-- The rate limiter's `requests map[string][]time.Time`: absent keys
map to the empty list. -/
abbrev RLState := Str → List Int

/-- The one-minute window of `rateLimiter.allow`, in seconds. -/
def windowDuration : Int := 60

/-- Embeds `rateLimiter.allow(key, limit)` from src/main.go, with the
call's `time.Now()` passed in as `now`.  Prunes timestamps not strictly
after `now - windowDuration`, denies (returning the state unchanged)
when the pruned count already reaches `limit`, otherwise appends `now`
and stores the pruned list back. -/
def allow (st : RLState) (key : Str) (limit : Int) (now : Int) : Bool × RLState :=
  let cutoff := now - windowDuration
  let filtered := (st key).filter (fun t => decide (cutoff < t))
  if (filtered.length : Int) ≥ limit then
    (false, st)
  else
    (true, fun k => if k = key then filtered ++ [now] else st k)

/-- Embeds `Config.authenticate(svc, r)` from src/main.go: `nil` auth
admits; `"bearer"` checks the `Authorization` header for the exact
`Bearer ` prefix and membership of the trimmed token; `"apikey"` checks
the `X-API-Key` header; any other type string falls into the `default`
branch and admits. -/
def authenticate (auth : Option AuthConfig) (r : Request) : Bool :=
  match auth with
  | none => true
  | some a =>
    if a.typ = "bearer".toList then
      if hasPfx r.authorization ("Bearer ".toList) then
        containsStr a.tokens (r.authorization.drop ("Bearer ".toList).length)
      else false
    else if a.typ = "apikey".toList then
      containsStr a.tokens r.xApiKey
    else true

/-- Lookup in `Config.Services` (`c.Services[serviceName]`). -/
def lookupService (cfg : Config) (name : Str) : Option Service :=
  (cfg.services.find? (fun p => decide (p.1 = name))).map Prod.snd

/-- The admission key `fmt.Sprintf("%s:%s", serviceName, clientIP)`. -/
def mkKey (service client : Str) : Str :=
  service ++ ':' :: client

/-- The path rewrite of the handler: `"/" + parts[1]` when a remainder
exists, else `"/"`. -/
def rewritePath : Option Str → Str
  | some rest => '/' :: rest
  | none => ['/']

/-- The terminal response of one handler invocation:
400, 404, 401 (with the `WWW-Authenticate` value), 429 (with the
`X-RateLimit-Limit` value and `X-RateLimit-Remaining` / `Retry-After`
header strings), or the proxied forward (target plus rewritten path). -/
inductive Outcome where
  | badRequest : Outcome
  | notFound : Outcome
  | unauthorized (challenge : Str) : Outcome
  | rateLimited (limit : Int) (remaining retryAfter : Str) : Outcome
  | forwarded (target rewrittenPath : Str) : Outcome
  deriving DecidableEq

/-- Embeds the request handler `Config.handler` from src/main.go:
parse the path, look up the service, authenticate, rate-limit (only when
a policy is configured), rewrite the path and forward.  Returns the
terminal outcome and the successor rate-limiter state. -/
def handler (cfg : Config) (st : RLState) (now : Int) (r : Request) :
    Outcome × RLState :=
  let parts := splitN2 (trimSlash r.path)
  if parts.1 = [] then (.badRequest, st)
  else
    match lookupService cfg parts.1 with
    | none => (.notFound, st)
    | some svc =>
      if authenticate svc.auth r then
        match svc.rateLimit with
        | some rlc =>
          let key := mkKey parts.1 r.remoteAddr
          let res := allow st key rlc.requestsPerMinute now
          if res.1 then
            (.forwarded svc.target (rewritePath parts.2), res.2)
          else
            (.rateLimited rlc.requestsPerMinute ("0".toList) ("60".toList), res.2)
        | none => (.forwarded svc.target (rewritePath parts.2), st)
      else
        (.unauthorized ("Bearer realm=\"gateway\"".toList), st)

/-- One recorded `allow` invocation: key, limit, and call time. -/
structure Call where
  key : Str
  limit : Int
  now : Int

/-- Folds a sequence of `allow` calls over the limiter state. -/
def runAllow (st : RLState) : List Call → RLState
  | [] => st
  | c :: cs => runAllow (allow st c.key c.limit c.now).2 cs

/-! ### Helper lemmas -/

/-- Characterisation: `hasPfx` holds exactly when the string decomposes as the given prefix followed by a rest. -/
theorem hasPfx_iff (s p : Str) : hasPfx s p = true ↔ ∃ t, s = p ++ t := by
  induction p generalizing s with
  | nil => simp [hasPfx]
  | cons c cs ih =>
    cases s with
    | nil => simp [hasPfx]
    | cons a as =>
      by_cases h : a = c
      · subst h
        rw [show hasPfx (a :: as) (a :: cs) = hasPfx as cs from by simp [hasPfx]]
        rw [ih]
        constructor
        · rintro ⟨t, rfl⟩
          exact ⟨t, by simp⟩
        · rintro ⟨t, ht⟩
          rw [List.cons_append] at ht
          injection ht with _ h2
          exact ⟨t, h2⟩
      · constructor
        · intro hf
          simp [hasPfx, h] at hf
        · rintro ⟨t, ht⟩
          rw [List.cons_append] at ht
          injection ht with h1 _
          exact absurd h1 h

/-- Characterisation: `containsStr` is list membership. -/
theorem containsStr_iff (ts : List Str) (x : Str) :
    containsStr ts x = true ↔ x ∈ ts := by
  unfold containsStr
  rw [List.any_eq_true]
  constructor
  · rintro ⟨t, ht, hd⟩
    rw [decide_eq_true_iff] at hd
    rwa [hd]
  · intro h
    exact ⟨x, h, by simp⟩

/-! ### Rate limiter helper lemmas -/

/-- The verdict of `allow` is a function of the pruned length of the
caller's own window against the limit. -/
theorem allow_fst (st : RLState) (key : Str) (limit now : Int) :
    (allow st key limit now).1
      = if (((st key).filter (fun t => decide (now - windowDuration < t))).length : Int)
            ≥ limit
        then false else true := by
  simp only [allow]
  split
  · rfl
  · rfl

/-- Frame property: `allow` never changes the stored window of a different key. -/
theorem allow_snd_other (st : RLState) (key : Str) (limit now : Int)
    (k : Str) (hk : k ≠ key) :
    (allow st key limit now).2 k = st k := by
  simp only [allow]
  split
  · rfl
  · simp [hk]

/-- A run of `allow` calls that never touches `key` leaves the stored
window of `key` unchanged. -/
theorem runAllow_other (calls : List Call) (st : RLState) (key : Str)
    (h : ∀ c ∈ calls, c.key ≠ key) :
    runAllow st calls key = st key := by
  induction calls generalizing st with
  | nil => rfl
  | cons c cs ih =>
    rw [runAllow]
    rw [ih _ (fun d hd => h d (List.mem_cons_of_mem c hd))]
    exact allow_snd_other st c.key c.limit c.now key
      (Ne.symm (h c (List.mem_cons_self c cs)))

/-! ### Claims about the rate limiter -/

/-- Claim C2: under a policy with `requestsPerWindow = 0`, `allow`
denies every request whatever the stored window holds, recording
nothing (0 is never treated as unlimited, and no division occurs in the
algorithm at all). -/
theorem zero_limit_denies (st : RLState) (key : Str) (now : Int) :
    allow st key 0 now = (false, st) := by
  unfold allow
  rw [if_pos]
  exact Int.natCast_nonneg _

/-- Claim C10: a denied `allow` call leaves the whole stored state
unchanged — in particular the pruned list computed during the decision
is discarded, so stale timestamps persist; an admitted call writes the
pruned list plus `now` back for its own key and leaves every other key
untouched. -/
theorem deny_discards_pruning (st : RLState) (key : Str) (limit now : Int) :
    ((allow st key limit now).1 = false → (allow st key limit now).2 = st)
    ∧ ((allow st key limit now).1 = true →
        (allow st key limit now).2 key
          = (st key).filter (fun t => decide (now - windowDuration < t)) ++ [now]
        ∧ ∀ k, k ≠ key → (allow st key limit now).2 k = st k) := by
  by_cases h :
      ((((st key).filter (fun t => decide (now - windowDuration < t))).length : Int) ≥ limit)
  · refine ⟨fun _ => ?_, fun ht => ?_⟩
    · simp [allow, h]
    · simp [allow, h] at ht
  · refine ⟨fun hf => ?_, fun _ => ⟨?_, fun k hk => ?_⟩⟩
    · simp [allow, h] at hf
    · simp [allow, h]
    · simp [allow, h, hk]

/-- Claim C10 witness: with a stale timestamp stored and limit 0, the
call is denied and the stored state — stale entry included — is
returned unchanged. -/
theorem deny_discards_pruning_witness :
    (allow (fun _ => [-1000]) ("s:1.2.3.4".toList) 0 500).1 = false ∧
      (allow (fun _ => [-1000]) ("s:1.2.3.4".toList) 0 500).2 = (fun _ => [-1000]) := by
  refine ⟨by decide, ?_⟩
  exact (deny_discards_pruning (fun _ => [-1000]) ("s:1.2.3.4".toList) 0 500).1 (by decide)

/-- Claim C1: sliding-window admission.  If the stored window for a key
holds exactly `N` timestamps, all inside the trailing window at `now`,
then under a policy `requestsPerWindow = N` the next call at `now` is
denied and records nothing (state returned unchanged); and a call made
at any `later` instant at which every recorded timestamp is older than
the window duration is admitted again — the window slides with the call
time, it does not reset at fixed boundaries. -/
theorem sliding_window_deny_then_allow
    (st : RLState) (key : Str) (N now later : Int)
    (hwin : ∀ t ∈ st key, now - windowDuration < t)
    (hlen : ((st key).length : Int) = N)
    (hpos : 0 < N)
    (hold : ∀ t ∈ st key, windowDuration < later - t) :
    allow st key N now = (false, st) ∧ (allow st key N later).1 = true := by
  constructor
  · have hf : (st key).filter (fun t => decide (now - windowDuration < t)) = st key :=
      List.filter_eq_self.2 (fun a ha => decide_eq_true (hwin a ha))
    simp only [allow]
    rw [hf, if_pos hlen.ge]
  · have hf : (st key).filter (fun t => decide (later - windowDuration < t)) = [] := by
      rw [List.filter_eq_nil_iff]
      intro a ha
      have h1 := hold a ha
      simp only [decide_eq_true_eq]
      omega
    rw [allow_fst, hf, if_neg (by simp; omega)]

/-- Claim C1 witness: limit 1, one admission recorded at time 100; the
next call at time 150 (within the window) is denied with the state left
as it was, and a call at time 300 (the entry now being older than the
window) is admitted. -/
theorem sliding_window_deny_then_allow_witness :
    allow (fun _ => [100]) ("s:1.2.3.4".toList) 1 150 = (false, fun _ => [100])
    ∧ (allow (fun _ => [100]) ("s:1.2.3.4".toList) 1 300).1 = true :=
  sliding_window_deny_then_allow (fun _ => [100]) ("s:1.2.3.4".toList) 1 150 300
    (by decide) (by decide) (by decide) (by decide)

/-- Claim C7: per-key noninterference of admission control.  The
verdict of `allow` depends only on the caller's own stored window; a
call for one key never changes another key's window; any sequence of
calls avoiding a key leaves that key's window, and hence its next
verdict, unchanged; and the composite keys of distinct clients on one
service, and of one client on distinct services, are distinct. -/
theorem per_key_noninterference :
    (∀ st₁ st₂ : RLState, ∀ (key : Str) (limit now : Int), st₁ key = st₂ key →
        (allow st₁ key limit now).1 = (allow st₂ key limit now).1)
    ∧ (∀ st : RLState, ∀ (key : Str) (limit now : Int), ∀ k ≠ key,
        (allow st key limit now).2 k = st k)
    ∧ (∀ st : RLState, ∀ (calls : List Call) (key : Str),
        (∀ c ∈ calls, c.key ≠ key) → runAllow st calls key = st key)
    ∧ (∀ st : RLState, ∀ (calls : List Call) (key : Str) (limit now : Int),
        (∀ c ∈ calls, c.key ≠ key) →
        (allow (runAllow st calls) key limit now).1 = (allow st key limit now).1)
    ∧ (∀ s a b : Str, a ≠ b → mkKey s a ≠ mkKey s b)
    ∧ (∀ x y c : Str, x ≠ y → mkKey x c ≠ mkKey y c) := by
  have h1 : ∀ st₁ st₂ : RLState, ∀ (key : Str) (limit now : Int), st₁ key = st₂ key →
      (allow st₁ key limit now).1 = (allow st₂ key limit now).1 := by
    intro st₁ st₂ key limit now h
    rw [allow_fst, allow_fst, h]
  refine ⟨h1, ?_, ?_, ?_, ?_, ?_⟩
  · intro st key limit now k hk
    exact allow_snd_other st key limit now k hk
  · intro st calls key h
    exact runAllow_other calls st key h
  · intro st calls key limit now h
    exact h1 _ _ key limit now (runAllow_other calls st key h)
  · intro s a b hab heq
    have h2 : ':' :: a = ':' :: b := List.append_cancel_left heq
    injection h2 with _ h3
    exact hab h3
  · intro x y c hxy heq
    exact hxy (List.append_inj' heq rfl).1

/-- Claim C7 witness: exhausting client A's window on service x does
not change the verdict for client B (an empty window admits under
limit 1 either way), and the keys involved are distinct. -/
theorem per_key_noninterference_witness :
    (allow (fun k => if k = "x:A".toList then [25, 28] else []) ("x:B".toList) 1 30).1
      = (allow (fun _ => ([] : List Int)) ("x:B".toList) 1 30).1
    ∧ mkKey ("x".toList) ("A".toList) ≠ mkKey ("x".toList) ("B".toList)
    ∧ mkKey ("x".toList) ("A".toList) ≠ mkKey ("y".toList) ("A".toList) :=
  ⟨per_key_noninterference.1 _ _ ("x:B".toList) 1 30 (by decide),
   per_key_noninterference.2.2.2.2.1 _ _ _ (by decide),
   per_key_noninterference.2.2.2.2.2 _ _ _ (by decide)⟩

/-! ### Claims about the authenticator -/

/-- Unfolding of `authenticate` at a present policy. -/
theorem authenticate_some (a : AuthConfig) (r : Request) :
    authenticate (some a) r =
      (if a.typ = "bearer".toList then
        (if hasPfx r.authorization ("Bearer ".toList) then
          containsStr a.tokens (r.authorization.drop ("Bearer ".toList).length)
        else false)
      else if a.typ = "apikey".toList then
        containsStr a.tokens r.xApiKey
      else true) := rfl

/-- Claim C8: an auth policy whose type string is neither `"bearer"`
nor `"apikey"` falls into the `default` branch of the switch and admits
every request, with no credential check at all. -/
theorem unknown_auth_type_allows (a : AuthConfig) (r : Request)
    (hb : a.typ ≠ "bearer".toList) (hk : a.typ ≠ "apikey".toList) :
    authenticate (some a) r = true := by
  rw [authenticate_some, if_neg hb, if_neg hk]

/-- Claim C8 witness: type `"basic"` with an empty token list admits a
request carrying no credentials at all. -/
theorem unknown_auth_type_allows_witness :
    authenticate (some ⟨"basic".toList, []⟩) ⟨[], [], [], []⟩ = true :=
  unknown_auth_type_allows ⟨"basic".toList, []⟩ ⟨[], [], [], []⟩
    (by decide) (by decide)

/-- Claim C3: under a `bearer` policy, a request is admitted iff its
`Authorization` header is literally `"Bearer "` followed by a member of
the token list — exact, case-sensitive comparison with no trimming; all
other requests are denied. -/
theorem bearer_auth_iff (tokens : List Str) (r : Request) :
    authenticate (some ⟨"bearer".toList, tokens⟩) r = true ↔
      ∃ tok ∈ tokens, r.authorization = "Bearer ".toList ++ tok := by
  by_cases hp : hasPfx r.authorization ("Bearer ".toList) = true
  · obtain ⟨t, ht⟩ := (hasPfx_iff _ _).1 hp
    have h1 : authenticate (some ⟨"bearer".toList, tokens⟩) r
        = containsStr tokens t := by
      rw [authenticate_some, if_pos rfl, if_pos hp, ht, List.drop_left]
    rw [h1, containsStr_iff]
    constructor
    · intro hmem
      exact ⟨t, hmem, ht⟩
    · rintro ⟨tok, htok, heq⟩
      have h2 : t = tok := by
        rw [ht] at heq
        exact List.append_cancel_left heq
      rw [h2]
      exact htok
  · have h1 : authenticate (some ⟨"bearer".toList, tokens⟩) r = false := by
      rw [authenticate_some, if_pos rfl, if_neg hp]
    rw [h1]
    constructor
    · intro h
      exact absurd h (by simp)
    · rintro ⟨tok, _, heq⟩
      exact absurd ((hasPfx_iff _ _).2 ⟨tok, heq⟩) hp

/-! ### Claims about the dispatcher -/

/-- Evaluation of `splitN2` on a slash-free string: the whole string, no remainder. -/
theorem splitN2_no_slash (s : Str) (h : '/' ∉ s) : splitN2 s = (s, none) := by
  induction s with
  | nil => rfl
  | cons c cs ih =>
    have hc : ¬(c = '/') := fun h' => h (h' ▸ List.mem_cons_self c cs)
    simp only [splitN2, if_neg hc]
    rw [ih (fun hm => h (List.mem_cons_of_mem c hm))]

/-- Evaluation of `splitN2` on a string with a slash: it splits at the first slash. -/
theorem splitN2_first_slash (s t : Str) (h : '/' ∉ s) :
    splitN2 (s ++ '/' :: t) = (s, some t) := by
  induction s with
  | nil => rfl
  | cons c cs ih =>
    have hc : ¬(c = '/') := fun h' => h (h' ▸ List.mem_cons_self c cs)
    simp only [List.cons_append, splitN2, if_neg hc, List.append_eq]
    rw [ih (fun hm => h (List.mem_cons_of_mem c hm))]

/-- Claim C4: a request routed to a service whose auth policy rejects
it terminates as 401 Unauthorized: it is never forwarded (no upstream
traffic) and the rate-limiter state is returned unchanged (no admission
state is recorded for the denied request). -/
theorem unauthorized_no_forward
    (cfg : Config) (st : RLState) (now : Int) (r : Request) (svc : Service)
    (hparse : (splitN2 (trimSlash r.path)).1 ≠ [])
    (hroute : lookupService cfg (splitN2 (trimSlash r.path)).1 = some svc)
    (hdeny : authenticate svc.auth r = false) :
    handler cfg st now r
      = (.unauthorized ("Bearer realm=\"gateway\"".toList), st) := by
  simp only [handler]
  rw [if_neg hparse, hroute]
  simp [hdeny]

/-- Claim C4 witness: a bearer-protected service and a request with no
`Authorization` header: the outcome is 401 with the limiter state
untouched. -/
theorem unauthorized_no_forward_witness :
    handler
      ⟨[("s".toList, ⟨"http://h".toList, some ⟨"bearer".toList, ["tok".toList]⟩, none⟩)]⟩
      (fun _ => []) 7 ⟨"/s/x".toList, [], [], "1.2.3.4:50".toList⟩
      = (.unauthorized ("Bearer realm=\"gateway\"".toList), fun _ => []) :=
  unauthorized_no_forward _ _ 7 _
    ⟨"http://h".toList, some ⟨"bearer".toList, ["tok".toList]⟩, none⟩
    (by decide) (by decide) (by decide)

/-- Claim C9: every authentication denial — whatever the policy kind,
apikey included — carries the challenge value
`Bearer realm="gateway"` in its `WWW-Authenticate` header. -/
theorem unauthorized_challenge_header
    (cfg : Config) (st : RLState) (now : Int) (r : Request)
    (c : Str) (st' : RLState)
    (h : handler cfg st now r = (.unauthorized c, st')) :
    c = "Bearer realm=\"gateway\"".toList := by
  simp only [handler] at h
  split at h
  · simp at h
  · split at h
    · simp at h
    · split at h
      · split at h
        · split at h
          · simp at h
          · simp at h
        · simp at h
      · have h1 := congrArg Prod.fst h
        simp only [Outcome.unauthorized.injEq] at h1
        exact h1.symm

/-- Claim C9 witness: an apikey-protected service denying a request
with no `X-API-Key` header still produces the bearer-style challenge
value. -/
theorem unauthorized_challenge_header_witness :
    ("Bearer realm=\"gateway\"".toList : Str) = "Bearer realm=\"gateway\"".toList :=
  unauthorized_challenge_header
    ⟨[("s".toList, ⟨"http://h".toList, some ⟨"apikey".toList, ["k1".toList]⟩, none⟩)]⟩
    (fun _ => []) 3 ⟨"/s/x".toList, [], [], "1.2.3.4:50".toList⟩
    _ (fun _ => []) rfl

/-- Claim C5: path rewriting.  Whenever the handler forwards a request
whose path is `/{serviceName}/{remainder}` (the service name nonempty
and slash-free), the rewritten upstream path is `"/" ++ remainder`, and
when the path is just `/{serviceName}` the upstream path is `"/"`. -/
theorem path_rewrite
    (cfg : Config) (st : RLState) (now : Int) (r : Request)
    (svcName : Str) (rem : Option Str) (t p : Str) (st' : RLState)
    (hns : svcName ≠ []) (hnoslash : '/' ∉ svcName)
    (hpath : r.path
      = '/' :: (svcName ++ (match rem with | some x => '/' :: x | none => [])))
    (hfwd : handler cfg st now r = (.forwarded t p, st')) :
    p = (match rem with | some x => '/' :: x | none => ['/']) := by
  cases rem with
  | some x =>
    have hparts : splitN2 (trimSlash r.path) = (svcName, some x) := by
      rw [hpath]
      exact splitN2_first_slash svcName x hnoslash
    simp only [handler, hparts] at hfwd
    rw [if_neg (by simpa using hns)] at hfwd
    split at hfwd
    · simp at hfwd
    · split at hfwd
      · split at hfwd
        · split at hfwd
          · have h1 := congrArg Prod.fst hfwd
            simp only [Outcome.forwarded.injEq] at h1
            exact h1.2.symm
          · simp at hfwd
        · have h1 := congrArg Prod.fst hfwd
          simp only [Outcome.forwarded.injEq] at h1
          exact h1.2.symm
      · simp at hfwd
  | none =>
    have hparts : splitN2 (trimSlash r.path) = (svcName, none) := by
      rw [hpath]
      show splitN2 (svcName ++ []) = (svcName, none)
      rw [List.append_nil]
      exact splitN2_no_slash svcName hnoslash
    simp only [handler, hparts] at hfwd
    rw [if_neg (by simpa using hns)] at hfwd
    split at hfwd
    · simp at hfwd
    · split at hfwd
      · split at hfwd
        · split at hfwd
          · have h1 := congrArg Prod.fst hfwd
            simp only [Outcome.forwarded.injEq] at h1
            exact h1.2.symm
          · simp at hfwd
        · have h1 := congrArg Prod.fst hfwd
          simp only [Outcome.forwarded.injEq] at h1
          exact h1.2.symm
      · simp at hfwd

/-- Claim C5 witness: `GET /svc/v1/models` against target
`http://host:4000` forwards with upstream path `/v1/models`, and
`GET /svc` forwards with upstream path `/`. -/
theorem path_rewrite_witness :
    ("/v1/models".toList : Str) = '/' :: "v1/models".toList
    ∧ (['/'] : Str) = ['/'] := by
  constructor
  · exact path_rewrite
      ⟨[("svc".toList, ⟨"http://host:4000".toList, none, none⟩)]⟩
      (fun _ => []) 0 ⟨"/svc/v1/models".toList, [], [], "c:1".toList⟩
      ("svc".toList) (some ("v1/models".toList))
      ("http://host:4000".toList) ("/v1/models".toList) (fun _ => [])
      (by decide) (by decide) (by decide) rfl
  · exact path_rewrite
      ⟨[("svc".toList, ⟨"http://host:4000".toList, none, none⟩)]⟩
      (fun _ => []) 0 ⟨"/svc".toList, [], [], "c:1".toList⟩
      ("svc".toList) none
      ("http://host:4000".toList) (['/']) (fun _ => [])
      (by decide) (by decide) (by decide) rfl

/-- Claim C6: a request routed to a service with no rate-limit policy
never yields 429 and leaves the admission-control state completely
unchanged — the admission controller is bypassed. -/
theorem no_ratelimit_bypass
    (cfg : Config) (st : RLState) (now : Int) (r : Request) (svc : Service)
    (hroute : lookupService cfg (splitN2 (trimSlash r.path)).1 = some svc)
    (hnone : svc.rateLimit = none) :
    (handler cfg st now r).2 = st
    ∧ ∀ (l : Int) (rem ra : Str),
        (handler cfg st now r).1 ≠ .rateLimited l rem ra := by
  simp only [handler]
  by_cases hparse : (splitN2 (trimSlash r.path)).1 = []
  · rw [if_pos hparse]
    exact ⟨rfl, by simp⟩
  · rw [if_neg hparse, hroute]
    by_cases hauth : authenticate svc.auth r = true
    · simp only [hauth, hnone]
      exact ⟨rfl, by simp⟩
    · simp only [eq_false_of_ne_true hauth]
      exact ⟨rfl, by simp⟩

/-- Claim C6 witness: a service with no rate-limit policy, request
forwarded, state unchanged and outcome not 429. -/
theorem no_ratelimit_bypass_witness :
    (handler ⟨[("s".toList, ⟨"http://h".toList, none, none⟩)]⟩
        (fun _ => []) 3 ⟨"/s/x".toList, [], [], "1.2.3.4:50".toList⟩).2 = (fun _ => [])
    ∧ ∀ (l : Int) (rem ra : Str),
        (handler ⟨[("s".toList, ⟨"http://h".toList, none, none⟩)]⟩
          (fun _ => []) 3 ⟨"/s/x".toList, [], [], "1.2.3.4:50".toList⟩).1
          ≠ .rateLimited l rem ra :=
  no_ratelimit_bypass _ _ 3 _ ⟨"http://h".toList, none, none⟩
    (by decide) rfl

end Gateway
